import Mathlib

/-!
A shallow embedding of the IndexedDB persistence layer of the book-log
application (`src/db/indexedDB.ts`).

Book records are JavaScript objects stored in the `books` object store
(key path `id`).  Apart from the identifier and the two timestamps, every
field of a stored object may be `undefined` (legacy records lack newer
fields, and `updateBook` can overwrite a field with `undefined` via object
spread), so those fields are modelled as `Option`.  The legacy single-tag
field `vibe` from an older schema is kept alongside the `vibes` array.

Timestamps (`Date` values) are modelled as natural numbers; `new Date(x)`
copies a timestamp by value, which is the identity here.  `generateId` and
`new Date()` are nondeterministic in the source, so the generated id and
the current time are passed as explicit parameters.

The tag-usage store `usedTags` (key path `tag`) is an association list of
`TagRec`.  Failure outcomes (`reject(new Error(...))`) are modelled with
`Except String`.
-/

namespace BookLog

/-- `type Language = 'English' | 'Swedish'` from `src/types/book.ts`. -/
inductive Language where
  | English
  | Swedish
deriving DecidableEq

/-- `type Format = 'E-book' | 'Physical' | 'Audio'` from `src/types/book.ts`. -/
inductive Format where
  | Ebook
  | Physical
  | Audio
deriving DecidableEq

/-- A book object as stored in (and returned from) the `books` object
store.  Fields other than `id`, `createdAt` and `updatedAt` can be absent
(`undefined`) on legacy records or after an update that spread an
`undefined` value over them, hence the `Option` types.  `vibe` is the
deprecated single-tag field of the pre-`vibes` schema. -/
structure Book where
  id : String
  title : Option String
  author : Option String
  genre : Option String
  pages : Option Int
  language : Option Language
  format : Option Format
  vibes : Option (List String)
  vibe : Option String
  rating : Option Int
  notes : Option String
  didNotFinish : Option Bool
  pagesRead : Option Int
  createdAt : Nat
  updatedAt : Nat
deriving DecidableEq

/-- The payload accepted by `addBook` (`BookInput` in `src/types/book.ts`,
extended with the completion fields the form submits:
`didNotFinish: boolean`, `pagesRead?: number`).  `vibes` is optional;
`addBook` normalizes an absent list to `[]`. -/
structure BookInput where
  title : String
  author : String
  genre : String
  pages : Int
  language : Language
  format : Format
  vibes : Option (List String)
  rating : Int
  notes : String
  didNotFinish : Bool
  pagesRead : Option Int
deriving DecidableEq

/-- A `Partial<BookInput>` change set for `updateBook`.  For the ordinary
fields the outer `Option` is key presence and the inner `Option` is the
JavaScript value (`some none` = key present with value `undefined`, which
object spread copies over the stored value).  For `vibes` the source tests
`updates.vibes !== undefined`, so a key present with `undefined` behaves
exactly like an absent key and a single `Option` suffices. -/
structure BookUpdate where
  title : Option (Option String)
  author : Option (Option String)
  genre : Option (Option String)
  pages : Option (Option Int)
  language : Option (Option Language)
  format : Option (Option Format)
  vibes : Option (List String)
  rating : Option (Option Int)
  notes : Option (Option String)
  didNotFinish : Option (Option Bool)
  pagesRead : Option (Option Int)
deriving DecidableEq

/-- The empty change set `{}`. -/
def emptyUpdate : BookUpdate :=
  ⟨none, none, none, none, none, none, none, none, none, none, none⟩

/-- A record of the `usedTags` object store: `{ tag, count }`. -/
structure TagRec where
  tag : String
  count : Nat
deriving DecidableEq

/-- The persistent state: the `books` store, the `usedTags` store, and
whether the `usedTags` store exists (`db.objectStoreNames.contains`),
which the tag operations check before touching it. -/
structure DBState where
  books : List Book
  tags : List TagRec
  tagsStoreExists : Bool
deriving DecidableEq

/-! ### Object-store primitives

IndexedDB `get`, `put` (insert-or-replace by key), `add` (insert, failing
with a `ConstraintError` when the key exists) and `delete`, as operations
on association lists, generic in the key path (`'id'` for the `books`
store, `'tag'` for the `usedTags` store). -/

/-- IndexedDB `store.get(k)`: the record whose key is `k`, if any. -/
def kGet {α : Type} (key : α → String) (l : List α) (k : String) : Option α :=
  l.find? (fun x => key x == k)

/-- IndexedDB `store.put(r)`: replace the record whose key equals `r`'s,
or append `r` when its key is absent. -/
def kPut {α : Type} (key : α → String) (l : List α) (r : α) : List α :=
  if l.any (fun x => key x == key r) then
    l.map (fun x => if key x == key r then r else x)
  else
    l ++ [r]

/-- IndexedDB `store.add(r)`: insert `r`; `none` models the
`ConstraintError` raised when the key already exists (the request fails
and the store is unchanged). -/
def kAdd {α : Type} (key : α → String) (l : List α) (r : α) : Option (List α) :=
  if l.any (fun x => key x == key r) then none else some (l ++ [r])

/-- IndexedDB `store.delete(k)`: remove the record with key `k`;
succeeds (as a no-op) when the key is absent. -/
def kDel {α : Type} (key : α → String) (l : List α) (k : String) : List α :=
  l.filter (fun x => !(key x == k))

/-- `store.get(id)` on the `books` store. -/
def storeGet (books : List Book) (id : String) : Option Book :=
  kGet Book.id books id

/-- `store.put(b)` on the `books` store. -/
def storePut (books : List Book) (b : Book) : List Book :=
  kPut Book.id books b

/-- `store.add(b)` on the `books` store. -/
def storeAdd (books : List Book) (b : Book) : Option (List Book) :=
  kAdd Book.id books b

/-- `store.delete(id)` on the `books` store. -/
def storeDelete (books : List Book) (id : String) : List Book :=
  kDel Book.id books id

/-- `store.get(t)` on the `usedTags` store. -/
def tagsGet (ts : List TagRec) (t : String) : Option TagRec :=
  kGet TagRec.tag ts t

/-- `store.put(r)` on the `usedTags` store. -/
def tagsPut (ts : List TagRec) (r : TagRec) : List TagRec :=
  kPut TagRec.tag ts r

/-- `store.add(r)` on the `usedTags` store. -/
def tagsAdd (ts : List TagRec) (r : TagRec) : Option (List TagRec) :=
  kAdd TagRec.tag ts r

/-! ### Tag-usage maintenance (`updateUsedTags`, `getAllUsedTags`) -/

/-- JavaScript `count || 1`: a falsy (zero) count is coerced to one. -/
def jsOr1 (c : Nat) : Nat :=
  if c = 0 then 1 else c

/-- Removes leading whitespace characters from a character list. -/
def dropWhitespace : List Char → List Char
  | [] => []
  | c :: cs => if c.isWhitespace then dropWhitespace cs else c :: cs

/-- JavaScript `String.prototype.trim()`: strip leading and trailing
whitespace. -/
def jsTrim (s : String) : String :=
  String.mk ((dropWhitespace (dropWhitespace s.data).reverse).reverse)

/-- `tags.map(tag => tag.trim()).filter(tag => tag.length > 0)`. -/
def normalizeTags (tags : List String) : List String :=
  (tags.map (fun t => jsTrim t)).filter (fun t => t.length != 0)

/-- A write request of one `updateUsedTags` call: `store.put(r)` for a
pre-existing tag, `store.add(r)` for a new one. -/
inductive TagWrite where
  | putW (r : TagRec)
  | addW (r : TagRec)
deriving DecidableEq

/-- Whether the write is a `put` (whose failure rejects the per-tag
promise, unlike an `add` failure, which resolves it). -/
def TagWrite.isPut : TagWrite → Bool
  | TagWrite.putW _ => true
  | TagWrite.addW _ => false

/-- The record a write carries. -/
def TagWrite.record : TagWrite → TagRec
  | TagWrite.putW r => r
  | TagWrite.addW r => r

/-- The write request `updateUsedTags` queues for one normalized tag.
All `store.get(tag)` requests are issued synchronously (inside the
`normalizedTags.map` of promise executors) before any `put`/`add` request
is placed, and an IndexedDB transaction processes its requests in FIFO
order; hence every existence check reads the index `pre` as it was before
the call.  A pre-existing tag gets a `put` of `(count || 1) + 1`; a
missing tag gets an `add` with count one. -/
def tagWrite (pre : List TagRec) (t : String) : TagWrite :=
  match tagsGet pre t with
  | some r => TagWrite.putW { r with count := jsOr1 r.count + 1 }
  | none => TagWrite.addW { tag := t, count := 1 }

/-- The outcome of executing the queued writes in FIFO order: either all
succeed and the transaction commits with the final index, or an `add`
hits an existing key, its `ConstraintError` event's default is not
prevented (`addRequest.onerror` only resolves the per-tag promise), and
the transaction aborts — every write of the call is rolled back, and the
writes still pending at that point fail with `AbortError`. -/
inductive WritesResult where
  | committed (ts : List TagRec)
  | aborted (pending : List TagWrite)

/-- Execute the queued writes in order on the evolving index `ts`,
stopping at the first failing `add` with the still-pending writes. -/
def runWrites (ts : List TagRec) : List TagWrite → WritesResult
  | [] => WritesResult.committed ts
  | TagWrite.putW r :: rest => runWrites (tagsPut ts r) rest
  | TagWrite.addW r :: rest =>
    match tagsAdd ts r with
    | some ts2 => runWrites ts2 rest
    | none => WritesResult.aborted rest

/-- `updateUsedTags(tags)`: resolves immediately when the `usedTags`
store does not exist; otherwise normalizes the tag list, queues one write
per entry (existence checks against the pre-call index, see `tagWrite`)
and executes them.  If all writes succeed the transaction commits and the
call resolves.  If an `add` fails, the transaction aborts and is rolled
back (the index is left unchanged); the pending writes then fail with
`AbortError`: a pending `put`'s handler rejects its per-tag promise, so
`Promise.all` rejects the call with that tag's failure message, while a
pending `add`'s handler resolves it — so a call whose pending writes are
all `add`s still resolves despite the rollback.  Returns the outcome
together with the resulting state. -/
def updateUsedTags (st : DBState) (tags : List String) :
    Except String Unit × DBState :=
  if st.tagsStoreExists then
    match runWrites st.tags ((normalizeTags tags).map (tagWrite st.tags)) with
    | WritesResult.committed ts2 => (Except.ok (), { st with tags := ts2 })
    | WritesResult.aborted pending =>
      match pending.find? TagWrite.isPut with
      | some w =>
        (Except.error (String.append "Failed to update tag: " w.record.tag), st)
      | none => (Except.ok (), st)
  else
    (Except.ok (), st)

/-- `getAllUsedTags()`: `[]` when the store does not exist, otherwise the
`tag` field of every record. -/
def getAllUsedTags (st : DBState) : List String :=
  if st.tagsStoreExists then st.tags.map (fun r => r.tag) else []

/-! ### Read-path normalization (`getAllBooks`, `getBookById`) -/

/-- The read-time migration both read paths apply to a raw stored object:
if `vibes` is an array it is kept (even when empty); otherwise a truthy
legacy `vibe` other than the sentinel `'Ingen vibe'` becomes a singleton
list, and anything else becomes `[]`.  `didNotFinish` defaults to `false`
when `undefined`; `pagesRead` is kept as is; the timestamps are re-wrapped
by value (`new Date(...)`); all other keys (including a leftover legacy
`vibe`) are carried over by the spread. -/
def normalize (b : Book) : Book :=
  { b with
    vibes :=
      some (match b.vibes with
        | some vs => vs
        | none =>
          match b.vibe with
          | some v => if v ≠ "" ∧ v ≠ "Ingen vibe" then [v] else []
          | none => [])
    didNotFinish := some (b.didNotFinish.getD false)
    pagesRead := b.pagesRead }

/-- `getAllBooks()`: every stored record, normalized. -/
def getAllBooks (st : DBState) : List Book :=
  st.books.map normalize

/-- `getBookById(id)`: the normalized record, or `none` (an explicit
"not found" result, not a failure) when absent. -/
def getBookById (st : DBState) (id : String) : Option Book :=
  (storeGet st.books id).map normalize

/-! ### Write path (`addBook`, `updateBook`, `deleteBook`)

The tag-index maintenance step is abstracted as a `TagUpdater` so that the
`try { await updateUsedTags(...) } catch { console.warn(...) }` blocks can
be analysed against an arbitrary (possibly failing) tag updater; the
concrete operations instantiate it with the fault-free `pureTagUpdate`. -/

/-- An abstract tag-index maintenance step: the outcome of
`updateUsedTags`, which may reject. -/
def TagUpdater : Type :=
  DBState → List String → Except String DBState

/-- The concrete tag updater: `updateUsedTags` as modelled above — on a
resolving call the resulting state, on a rejecting call (abort with a
pending `put`) the failure; the rejecting call's own state is the rolled
back input state, which is what the caller's catch branch keeps. -/
def pureTagUpdate : TagUpdater :=
  fun st tags =>
    match updateUsedTags st tags with
    | (Except.ok _, st2) => Except.ok st2
    | (Except.error e, _) => Except.error e

/-- The guarded, error-swallowing call
`if (vibes && vibes.length > 0) { try { await u(vibes) } catch { warn } }`:
a rejection of the tag updater is caught and ignored. -/
def runTagUpdate (u : TagUpdater) (st : DBState) (vibes : List String) : DBState :=
  if vibes.length != 0 then
    match u st vibes with
    | Except.ok st2 => st2
    | Except.error _ => st
  else
    st

/-- The record `addBook` builds and stores:
`{ ...bookInput, vibes: bookInput.vibes || [], id, createdAt: now, updatedAt: now }`. -/
def mkBook (input : BookInput) (newId : String) (now : Nat) : Book :=
  { id := newId
    title := some input.title
    author := some input.author
    genre := some input.genre
    pages := some input.pages
    language := some input.language
    format := some input.format
    vibes := some (input.vibes.getD [])
    vibe := none
    rating := some input.rating
    notes := some input.notes
    didNotFinish := some input.didNotFinish
    pagesRead := input.pagesRead
    createdAt := now
    updatedAt := now }

/-- `addBook(bookInput)`, generic in the tag updater: builds the record,
`store.add`s it (rejecting with `'Failed to add book'` when the key
exists), then best-effort updates the tag index, and resolves with the
stored record.  Returns the outcome together with the resulting state. -/
def addBookG (u : TagUpdater) (st : DBState) (input : BookInput) (newId : String)
    (now : Nat) : Except String Book × DBState :=
  let book := mkBook input newId now
  match storeAdd st.books book with
  | none => (Except.error "Failed to add book", st)
  | some books2 =>
    let st2 : DBState := { st with books := books2 }
    (Except.ok book, runTagUpdate u st2 (input.vibes.getD []))

/-- `addBook` with the fault-free tag updater. -/
def addBook (st : DBState) (input : BookInput) (newId : String) (now : Nat) :
    Except String Book × DBState :=
  addBookG pureTagUpdate st input newId now

/-- The merge `updateBook` performs:
`{ ...existingBook, ...updates, vibes: updates.vibes !== undefined ? (updates.vibes || []) : (existingBook.vibes || []), id: existingBook.id, createdAt: existingBook.createdAt, updatedAt: new Date() }`.
A change-set key present with value `undefined` overwrites the stored
field with `undefined`; the explicit trailing properties win over the
spreads; the legacy `vibe` key of the existing record is carried over. -/
def jsMerge (ex : Book) (u : BookUpdate) (now : Nat) : Book :=
  { id := ex.id
    title := u.title.getD ex.title
    author := u.author.getD ex.author
    genre := u.genre.getD ex.genre
    pages := u.pages.getD ex.pages
    language := u.language.getD ex.language
    format := u.format.getD ex.format
    vibes := some (match u.vibes with
      | some vs => vs
      | none => ex.vibes.getD [])
    vibe := ex.vibe
    rating := u.rating.getD ex.rating
    notes := u.notes.getD ex.notes
    didNotFinish := u.didNotFinish.getD ex.didNotFinish
    pagesRead := u.pagesRead.getD ex.pagesRead
    createdAt := ex.createdAt
    updatedAt := now }

/-- The value `updateBook` resolves with:
`{ ...updatedBook, vibes: updatedBook.vibes || [], createdAt: new Date(updatedBook.createdAt), updatedAt: updatedBook.updatedAt }`. -/
def resolveUpdated (b : Book) : Book :=
  { b with vibes := some (b.vibes.getD []) }

/-- `updateBook(id, updates)`, generic in the tag updater: rejects with
`'Book not found'` when no record has the identifier; otherwise merges,
`store.put`s the merged record, best-effort updates the tag index with the
merged tag list, and resolves with the merged record. -/
def updateBookG (u : TagUpdater) (st : DBState) (id : String) (upd : BookUpdate)
    (now : Nat) : Except String Book × DBState :=
  match storeGet st.books id with
  | none => (Except.error "Book not found", st)
  | some ex =>
    let updated := jsMerge ex upd now
    let st2 : DBState := { st with books := storePut st.books updated }
    (Except.ok (resolveUpdated updated), runTagUpdate u st2 (updated.vibes.getD []))

/-- `updateBook` with the fault-free tag updater. -/
def updateBook (st : DBState) (id : String) (upd : BookUpdate) (now : Nat) :
    Except String Book × DBState :=
  updateBookG pureTagUpdate st id upd now

/-- `deleteBook(id)`: `store.delete(id)`, which succeeds whether or not
the key exists (idempotent removal); the promise rejects only on a
storage fault. -/
def deleteBook (st : DBState) (id : String) : DBState :=
  { st with books := storeDelete st.books id }

/-! ### Operation sequences (for the tag-index monotonicity invariant) -/

/-- One call into the persistence layer. -/
inductive Op where
  | add (input : BookInput) (newId : String) (now : Nat)
  | update (id : String) (upd : BookUpdate) (now : Nat)
  | del (id : String)
  | tagUpdate (tags : List String)
  | tagQuery

/-- The state transition of each operation (reads leave the state
unchanged; `getAllUsedTags` is the read `tagQuery`). -/
def applyOp (st : DBState) : Op → DBState
  | Op.add input newId now => (addBook st input newId now).2
  | Op.update id upd now => (updateBook st id upd now).2
  | Op.del id => deleteBook st id
  | Op.tagUpdate tags => (updateUsedTags st tags).2
  | Op.tagQuery => st

/-- Tag-index ordering: every tag present in `A` is present in `B` with a
count at least as large. -/
def tagsLe (A B : List TagRec) : Prop :=
  ∀ t r, tagsGet A t = some r → ∃ s, tagsGet B t = some s ∧ r.count ≤ s.count

/-- The count `updateUsedTags` leaves a processed tag with, as a function
of the pre-call index: `(count || 1) + 1` when the tag pre-existed,
otherwise `1`. -/
def expectedCount (pre : List TagRec) (t : String) : Nat :=
  match tagsGet pre t with
  | some r => jsOr1 r.count + 1
  | none => 1

/-! ### Lemmas about the keyed-store primitives -/

theorem kGet_cons {α : Type} (key : α → String) (a : α) (l : List α) (k : String) :
    kGet key (a :: l) k = if key a == k then some a else kGet key l k := by
  cases h : key a == k <;> simp [kGet, List.find?_cons, h]

theorem kGet_key {α : Type} {key : α → String} {l : List α} {k : String} {r : α}
    (h : kGet key l k = some r) : key r = k := by
  simp only [kGet] at h
  have h2 := List.find?_some (p := fun x => key x == k) h
  exact eq_of_beq h2

theorem kGet_append {α : Type} (key : α → String) (l1 l2 : List α) (k : String) :
    kGet key (l1 ++ l2) k = (kGet key l1 k).or (kGet key l2 k) := by
  simp only [kGet, List.find?_append]

theorem kGet_eq_none_iff {α : Type} (key : α → String) (l : List α) (k : String) :
    kGet key l k = none ↔ l.any (fun x => key x == k) = false := by
  induction l with
  | nil => simp [kGet]
  | cons a t ih => cases h : key a == k <;> simp [kGet_cons, h, ih]

theorem kGet_map_put_ne {α : Type} (key : α → String) (l : List α) (r : α) (k : String)
    (hrk : (key r == k) = false) :
    kGet key (l.map (fun x => if key x == key r then r else x)) k = kGet key l k := by
  induction l with
  | nil => rfl
  | cons a t ih =>
    simp only [List.map_cons, kGet_cons]
    by_cases h : (key a == key r) = true
    · have ha : key a = key r := eq_of_beq h
      simp only [if_pos h]
      rw [if_neg (by simp [hrk] : ¬ (key r == k) = true),
        if_neg (by simp [ha, hrk] : ¬ (key a == k) = true), ih]
    · simp only [if_neg h]
      rw [ih]

theorem kGet_map_put_self {α : Type} (key : α → String) (l : List α) (r : α)
    (hany : l.any (fun x => key x == key r) = true) :
    kGet key (l.map (fun x => if key x == key r then r else x)) (key r) = some r := by
  induction l with
  | nil => simp at hany
  | cons a t ih =>
    simp only [List.map_cons, kGet_cons]
    by_cases h : (key a == key r) = true
    · simp only [if_pos h]
      rw [if_pos (by simp)]
    · simp only [if_neg h]
      have h2 : t.any (fun x => key x == key r) = true := by
        rcases (List.any_eq_true).mp hany with ⟨x, hx, hpx⟩
        rcases List.mem_cons.mp hx with rfl | hxt
        · exact absurd hpx h
        · exact List.any_eq_true.mpr ⟨x, hxt, hpx⟩
      exact ih h2

theorem kPut_get {α : Type} (key : α → String) (l : List α) (r : α) (k : String) :
    kGet key (kPut key l r) k = if key r == k then some r else kGet key l k := by
  unfold kPut
  by_cases hany : l.any (fun x => key x == key r) = true
  · rw [if_pos hany]
    by_cases hrk : (key r == k) = true
    · have hk : key r = k := eq_of_beq hrk
      subst hk
      rw [if_pos hrk]
      exact kGet_map_put_self key l r hany
    · have hrk2 : (key r == k) = false := by simpa using hrk
      rw [if_neg hrk]
      exact kGet_map_put_ne key l r k hrk2
  · have hany2 : l.any (fun x => key x == key r) = false := by simpa using hany
    rw [if_neg hany, kGet_append]
    by_cases hrk : (key r == k) = true
    · have hk : key r = k := eq_of_beq hrk
      have hnone : kGet key l k = none := by
        rw [kGet_eq_none_iff]
        rw [← hk]
        exact hany2
      rw [hnone, if_pos hrk]
      simp [kGet_cons, hrk, kGet]
    · rw [if_neg hrk]
      have hsing : kGet key [r] k = none := by
        simp [kGet_cons, hrk, kGet]
      rw [hsing]
      cases kGet key l k <;> rfl

theorem kAdd_eq_some {α : Type} {key : α → String} {l l2 : List α} {r : α}
    (h : kAdd key l r = some l2) :
    l2 = l ++ [r] ∧ l.any (fun x => key x == key r) = false := by
  unfold kAdd at h
  by_cases hany : l.any (fun x => key x == key r) = true
  · rw [if_pos hany] at h
    exact absurd h (by simp)
  · rw [if_neg hany] at h
    exact ⟨(Option.some_inj.mp h).symm, by simpa using hany⟩

theorem kAdd_eq_none {α : Type} {key : α → String} {l : List α} {r : α}
    (h : kAdd key l r = none) : l.any (fun x => key x == key r) = true := by
  unfold kAdd at h
  by_cases hany : l.any (fun x => key x == key r) = true
  · exact hany
  · rw [if_neg hany] at h
    exact absurd h (by simp)

theorem mem_kPut_of_ne {α : Type} {key : α → String} {l : List α} {r b : α}
    (hb : b ∈ l) (h : ¬ key b = key r) : b ∈ kPut key l r := by
  unfold kPut
  by_cases hany : l.any (fun x => key x == key r) = true
  · rw [if_pos hany]
    refine List.mem_map.mpr ⟨b, hb, ?_⟩
    rw [if_neg (by simpa using h)]
  · rw [if_neg hany]
    exact List.mem_append_left _ hb

theorem mem_of_mem_kPut {α : Type} {key : α → String} {l : List α} {r b : α}
    (hb : b ∈ kPut key l r) : b = r ∨ b ∈ l := by
  unfold kPut at hb
  by_cases hany : l.any (fun x => key x == key r) = true
  · rw [if_pos hany] at hb
    obtain ⟨a, ha, hfa⟩ := List.mem_map.mp hb
    by_cases h : (key a == key r) = true
    · rw [if_pos h] at hfa
      exact Or.inl hfa.symm
    · rw [if_neg h] at hfa
      exact Or.inr (hfa ▸ ha)
  · rw [if_neg hany] at hb
    rcases List.mem_append.mp hb with h | h
    · exact Or.inr h
    · exact Or.inl (List.mem_singleton.mp h)

theorem kDel_get_self {α : Type} (key : α → String) (l : List α) (k : String) :
    kGet key (kDel key l k) k = none := by
  induction l with
  | nil => rfl
  | cons a t ih =>
    by_cases h : (key a == k) = true
    · simpa [kDel, List.filter_cons, h] using ih
    · have h2 : (key a == k) = false := by simpa using h
      simpa [kDel, List.filter_cons, h2, kGet_cons] using ih

/-! ### Behaviour of the write phase of `updateUsedTags` -/

theorem tagsPut_get_eq (ts : List TagRec) (r : TagRec) :
    tagsGet (tagsPut ts r) r.tag = some r := by
  rw [show tagsGet (tagsPut ts r) r.tag =
      kGet TagRec.tag (kPut TagRec.tag ts r) r.tag from rfl, kPut_get]
  rw [if_pos (by simp)]

theorem tagsPut_get_ne (ts : List TagRec) (r : TagRec) (t : String)
    (h : ¬ r.tag = t) : tagsGet (tagsPut ts r) t = tagsGet ts t := by
  rw [show tagsGet (tagsPut ts r) t =
      kGet TagRec.tag (kPut TagRec.tag ts r) t from rfl, kPut_get]
  rw [if_neg (by simp [h])]
  rfl

theorem tagsGet_append_one_ne (ts : List TagRec) (r : TagRec) (t : String)
    (h : ¬ r.tag = t) : tagsGet (ts ++ [r]) t = tagsGet ts t := by
  rw [show tagsGet (ts ++ [r]) t =
      (tagsGet ts t).or (tagsGet [r] t) from kGet_append _ _ _ _]
  have hsing : tagsGet [r] t = none := by
    simp [tagsGet, kGet_cons, kGet, h]
  rw [hsing]
  cases tagsGet ts t <;> rfl

theorem tagsGet_append_one_eq (ts : List TagRec) (r : TagRec)
    (h : tagsGet ts r.tag = none) : tagsGet (ts ++ [r]) r.tag = some r := by
  rw [show tagsGet (ts ++ [r]) r.tag =
      (tagsGet ts r.tag).or (tagsGet [r] r.tag) from kGet_append _ _ _ _, h]
  simp [tagsGet, kGet_cons, kGet]

theorem tagsAdd_of_get_none {ts : List TagRec} {r : TagRec}
    (h : tagsGet ts r.tag = none) : tagsAdd ts r = some (ts ++ [r]) := by
  have hany := (kGet_eq_none_iff TagRec.tag ts r.tag).mp h
  unfold tagsAdd kAdd
  rw [if_neg (by simp [hany])]

theorem tagsAdd_of_get_some {ts : List TagRec} {r : TagRec}
    (h : ¬ tagsGet ts r.tag = none) : tagsAdd ts r = none := by
  have hany : ts.any (fun x => x.tag == r.tag) = true := by
    by_contra hc
    exact h ((kGet_eq_none_iff TagRec.tag ts r.tag).mpr (by simpa using hc))
  unfold tagsAdd kAdd
  rw [if_pos hany]

theorem tagWrite_of_some {pre : List TagRec} {t : String} {r : TagRec}
    (hg : tagsGet pre t = some r) :
    tagWrite pre t = TagWrite.putW ⟨t, jsOr1 r.count + 1⟩ := by
  have hr : r.tag = t := kGet_key hg
  unfold tagWrite
  rw [hg]
  cases r
  simp only at hr
  rw [hr]

theorem tagWrite_of_none {pre : List TagRec} {t : String}
    (hg : tagsGet pre t = none) : tagWrite pre t = TagWrite.addW ⟨t, 1⟩ := by
  unfold tagWrite
  rw [hg]

theorem expectedCount_of_some {pre : List TagRec} {t : String} {r : TagRec}
    (hg : tagsGet pre t = some r) : expectedCount pre t = jsOr1 r.count + 1 := by
  unfold expectedCount
  rw [hg]

theorem expectedCount_of_none {pre : List TagRec} {t : String}
    (hg : tagsGet pre t = none) : expectedCount pre t = 1 := by
  unfold expectedCount
  rw [hg]

/-- When the write phase commits, a tag of the processed list ends at
`expectedCount pre t` (all existence checks read the pre-call index
`pre`) and any other tag keeps its record. -/
theorem runWrites_committed_get (pre : List TagRec) (l : List String)
    (ts fin : List TagRec) (t : String)
    (hts : tagsGet ts t = tagsGet pre t ∨
      tagsGet ts t = some ⟨t, expectedCount pre t⟩)
    (hrun : runWrites ts (l.map (tagWrite pre)) = WritesResult.committed fin) :
    tagsGet fin t = if t ∈ l then some ⟨t, expectedCount pre t⟩ else tagsGet ts t := by
  induction l generalizing ts with
  | nil =>
    rw [List.map_nil] at hrun
    simp only [runWrites] at hrun
    injection hrun with h2
    subst h2
    simp
  | cons u l2 ih =>
    rw [List.map_cons] at hrun
    cases hg : tagsGet pre u with
    | some r =>
      rw [tagWrite_of_some hg] at hrun
      simp only [runWrites] at hrun
      by_cases hut : u = t
      · subst hut
        have hget : tagsGet (tagsPut ts ⟨u, jsOr1 r.count + 1⟩) u =
            some ⟨u, jsOr1 r.count + 1⟩ :=
          tagsPut_get_eq ts ⟨u, jsOr1 r.count + 1⟩
        have he : expectedCount pre u = jsOr1 r.count + 1 := expectedCount_of_some hg
        rw [ih (tagsPut ts ⟨u, jsOr1 r.count + 1⟩) (Or.inr (by rw [hget, he])) hrun]
        by_cases hm : u ∈ l2
        · rw [if_pos hm, if_pos (List.mem_cons_self u l2)]
        · rw [if_neg hm, if_pos (List.mem_cons_self u l2), hget, he]
      · have hpr : tagsGet (tagsPut ts ⟨u, jsOr1 r.count + 1⟩) t = tagsGet ts t :=
          tagsPut_get_ne ts ⟨u, jsOr1 r.count + 1⟩ t hut
        rw [ih (tagsPut ts ⟨u, jsOr1 r.count + 1⟩) (by rw [hpr]; exact hts) hrun, hpr]
        by_cases hm : t ∈ l2
        · rw [if_pos hm, if_pos (List.mem_cons_of_mem u hm)]
        · rw [if_neg hm, if_neg ?_]
          intro hc
          rcases List.mem_cons.mp hc with hh | hh
          · exact hut hh.symm
          · exact hm hh
    | none =>
      rw [tagWrite_of_none hg] at hrun
      cases ha : tagsAdd ts ⟨u, 1⟩ with
      | some ts2 =>
        simp only [runWrites, ha] at hrun
        obtain ⟨hts2eq, hanyf⟩ := kAdd_eq_some ha
        subst hts2eq
        have hnone : tagsGet ts u = none := by
          rw [show tagsGet ts u = kGet TagRec.tag ts u from rfl, kGet_eq_none_iff]
          exact hanyf
        by_cases hut : u = t
        · subst hut
          have hget : tagsGet (ts ++ [⟨u, 1⟩]) u = some ⟨u, 1⟩ :=
            tagsGet_append_one_eq ts ⟨u, 1⟩ hnone
          have he : expectedCount pre u = 1 := expectedCount_of_none hg
          rw [ih (ts ++ [⟨u, 1⟩]) (Or.inr (by rw [hget, he])) hrun]
          by_cases hm : u ∈ l2
          · rw [if_pos hm, if_pos (List.mem_cons_self u l2)]
          · rw [if_neg hm, if_pos (List.mem_cons_self u l2), hget, he]
        · have hpr : tagsGet (ts ++ [⟨u, 1⟩]) t = tagsGet ts t :=
            tagsGet_append_one_ne ts ⟨u, 1⟩ t hut
          rw [ih (ts ++ [⟨u, 1⟩]) (by rw [hpr]; exact hts) hrun, hpr]
          by_cases hm : t ∈ l2
          · rw [if_pos hm, if_pos (List.mem_cons_of_mem u hm)]
          · rw [if_neg hm, if_neg ?_]
            intro hc
            rcases List.mem_cons.mp hc with hh | hh
            · exact hut hh.symm
            · exact hm hh
      | none =>
        simp only [runWrites, ha] at hrun
        exact WritesResult.noConfusion hrun

/-- The write phase commits when no new tag (absent from the pre-call
index) occurs more than once in the processed list. -/
theorem runWrites_commits (pre : List TagRec) (l : List String) (ts : List TagRec)
    (hnodup : ∀ u ∈ l, tagsGet pre u = none → l.count u ≤ 1)
    (H : ∀ u ∈ l, tagsGet pre u = none → tagsGet ts u = none) :
    ∃ fin, runWrites ts (l.map (tagWrite pre)) = WritesResult.committed fin := by
  induction l generalizing ts with
  | nil => exact ⟨ts, rfl⟩
  | cons u l2 ih =>
    have hnodup2 : ∀ v ∈ l2, tagsGet pre v = none → l2.count v ≤ 1 := by
      intro v hv hgv
      have h1 := hnodup v (List.mem_cons_of_mem u hv) hgv
      have h2 : l2.count v ≤ (u :: l2).count v := by
        rw [List.count_cons]
        omega
      omega
    cases hg : tagsGet pre u with
    | some r =>
      rw [List.map_cons, tagWrite_of_some hg]
      simp only [runWrites]
      refine ih (tagsPut ts ⟨u, jsOr1 r.count + 1⟩) hnodup2 ?_
      intro v hv hgv
      have hne : ¬ u = v := by
        intro hh
        rw [hh, hgv] at hg
        exact Option.noConfusion hg
      rw [tagsPut_get_ne ts ⟨u, jsOr1 r.count + 1⟩ v hne]
      exact H v (List.mem_cons_of_mem u hv) hgv
    | none =>
      rw [List.map_cons, tagWrite_of_none hg]
      have hnone : tagsGet ts u = none := H u (List.mem_cons_self u l2) hg
      have hadd : tagsAdd ts ⟨u, 1⟩ = some (ts ++ [⟨u, 1⟩]) :=
        tagsAdd_of_get_none hnone
      simp only [runWrites, hadd]
      have hmemu : u ∉ l2 := by
        have hc := hnodup u (List.mem_cons_self u l2) hg
        rw [List.count_cons_self] at hc
        have : l2.count u = 0 := by omega
        exact List.count_eq_zero.mp this
      refine ih (ts ++ [⟨u, 1⟩]) hnodup2 ?_
      intro v hv hgv
      have hvne : ¬ u = v := fun hh => hmemu (hh ▸ hv)
      rw [tagsGet_append_one_ne ts ⟨u, 1⟩ v hvne]
      exact H v (List.mem_cons_of_mem u hv) hgv

/-- The write phase aborts when some new tag is (still) duplicated: its
second `add` hits the key its first `add` created. -/
theorem runWrites_aborts (pre : List TagRec) (l : List String) (ts : List TagRec)
    (u : String) (hu : tagsGet pre u = none)
    (hcase : (¬ tagsGet ts u = none ∧ 1 ≤ l.count u) ∨
      (tagsGet ts u = none ∧ 2 ≤ l.count u)) :
    ∃ pending, runWrites ts (l.map (tagWrite pre)) = WritesResult.aborted pending := by
  induction l generalizing ts with
  | nil =>
    rcases hcase with ⟨_, hc⟩ | ⟨_, hc⟩ <;> simp [List.count_nil] at hc
  | cons v l2 ih =>
    cases hg : tagsGet pre v with
    | some r =>
      rw [List.map_cons, tagWrite_of_some hg]
      simp only [runWrites]
      have hvu : ¬ v = u := by
        intro hh
        rw [hh, hu] at hg
        exact Option.noConfusion hg
      have hpr : tagsGet (tagsPut ts ⟨v, jsOr1 r.count + 1⟩) u = tagsGet ts u :=
        tagsPut_get_ne ts ⟨v, jsOr1 r.count + 1⟩ u hvu
      have huv : ¬ u = v := fun hh => hvu hh.symm
      have hcnt : (v :: l2).count u = l2.count u := by
        simp [List.count_cons, huv]
      refine ih (tagsPut ts ⟨v, jsOr1 r.count + 1⟩) ?_
      rcases hcase with ⟨h1, h2⟩ | ⟨h1, h2⟩
      · rw [hcnt] at h2
        exact Or.inl ⟨by rw [hpr]; exact h1, h2⟩
      · rw [hcnt] at h2
        exact Or.inr ⟨by rw [hpr]; exact h1, h2⟩
    | none =>
      rw [List.map_cons, tagWrite_of_none hg]
      by_cases hvu : v = u
      · subst hvu
        rcases hcase with ⟨h1, h2⟩ | ⟨h1, h2⟩
        · have hadd : tagsAdd ts ⟨v, 1⟩ = none := tagsAdd_of_get_some h1
          simp only [runWrites, hadd]
          exact ⟨l2.map (tagWrite pre), rfl⟩
        · have hadd : tagsAdd ts ⟨v, 1⟩ = some (ts ++ [⟨v, 1⟩]) :=
            tagsAdd_of_get_none h1
          simp only [runWrites, hadd]
          refine ih (ts ++ [⟨v, 1⟩]) (Or.inl ⟨?_, ?_⟩)
          · rw [tagsGet_append_one_eq ts ⟨v, 1⟩ h1]
            simp
          · rw [List.count_cons_self] at h2
            omega
      · have huv : ¬ u = v := fun hh => hvu hh.symm
        have hcnt : (v :: l2).count u = l2.count u := by
          simp [List.count_cons, huv]
        cases ha : tagsAdd ts ⟨v, 1⟩ with
        | some ts2 =>
          obtain ⟨hts2eq, _⟩ := kAdd_eq_some ha
          subst hts2eq
          simp only [runWrites, ha]
          have hpr : tagsGet (ts ++ [⟨v, 1⟩]) u = tagsGet ts u :=
            tagsGet_append_one_ne ts ⟨v, 1⟩ u hvu
          refine ih (ts ++ [⟨v, 1⟩]) ?_
          rcases hcase with ⟨h1, h2⟩ | ⟨h1, h2⟩
          · rw [hcnt] at h2
            exact Or.inl ⟨by rw [hpr]; exact h1, h2⟩
          · rw [hcnt] at h2
            exact Or.inr ⟨by rw [hpr]; exact h1, h2⟩
        | none =>
          simp only [runWrites, ha]
          exact ⟨l2.map (tagWrite pre), rfl⟩

/-- The writes still pending at an abort are among the queued writes. -/
theorem runWrites_aborted_mem {ts : List TagRec} {ws pending : List TagWrite}
    (hrun : runWrites ts ws = WritesResult.aborted pending) :
    ∀ w ∈ pending, w ∈ ws := by
  induction ws generalizing ts with
  | nil =>
    simp only [runWrites] at hrun
    exact WritesResult.noConfusion hrun
  | cons w0 rest ih =>
    cases w0 with
    | putW r =>
      simp only [runWrites] at hrun
      intro w hw
      exact List.mem_cons_of_mem _ (ih hrun w hw)
    | addW r =>
      cases ha : tagsAdd ts r with
      | some ts2 =>
        simp only [runWrites, ha] at hrun
        intro w hw
        exact List.mem_cons_of_mem _ (ih hrun w hw)
      | none =>
        simp only [runWrites, ha] at hrun
        injection hrun with h2
        subst h2
        intro w hw
        exact List.mem_cons_of_mem _ hw

/-- `updateUsedTags` when the `usedTags` store does not exist: resolves,
no-op. -/
theorem updateUsedTags_not_exists (st : DBState) (tags : List String)
    (hex : st.tagsStoreExists = false) :
    updateUsedTags st tags = (Except.ok (), st) := by
  unfold updateUsedTags
  rw [if_neg (by simp [hex])]

/-- `updateUsedTags` never touches the `books` store (its transaction
covers only the `usedTags` store, so even an abort rolls back nothing in
`books`). -/
theorem updateUsedTags_books (st : DBState) (tags : List String) :
    (updateUsedTags st tags).2.books = st.books := by
  unfold updateUsedTags
  by_cases hex : st.tagsStoreExists = true
  · rw [if_pos hex]
    cases hrw : runWrites st.tags ((normalizeTags tags).map (tagWrite st.tags)) with
    | committed ts2 => rfl
    | aborted pending =>
      cases hf : pending.find? TagWrite.isPut with
      | some w =>
        simp only [hf]
      | none =>
        simp only [hf]
  · rw [if_neg hex]

/-- A rejecting `updateUsedTags` call has aborted: its state is the
rolled-back input state. -/
theorem updateUsedTags_error_state {st : DBState} {tags : List String} {e : String}
    (h : (updateUsedTags st tags).1 = Except.error e) :
    (updateUsedTags st tags).2 = st := by
  unfold updateUsedTags at h ⊢
  by_cases hex : st.tagsStoreExists = true
  · rw [if_pos hex] at h ⊢
    cases hrw : runWrites st.tags ((normalizeTags tags).map (tagWrite st.tags)) with
    | committed ts2 =>
      rw [hrw] at h
      simp at h
    | aborted pending =>
      cases hf : pending.find? TagWrite.isPut with
      | some w => simp only [hf]
      | none => simp only [hf]
  · rw [if_neg hex] at h ⊢

/-- With the concrete tag updater, the guarded best-effort call lands on
the state `updateUsedTags` leaves behind: the committed state on success,
the rolled-back (input) state on a rejection, which the catch swallows;
an empty tag list makes both sides a no-op. -/
theorem runTagUpdate_pure (st : DBState) (vibes : List String) :
    runTagUpdate pureTagUpdate st vibes = (updateUsedTags st vibes).2 := by
  unfold runTagUpdate pureTagUpdate
  by_cases h : (vibes.length != 0) = true
  · rw [if_pos h]
    cases hu : updateUsedTags st vibes with
    | mk outcome st2 =>
      cases outcome with
      | ok v => rfl
      | error e =>
        have h1 : (updateUsedTags st vibes).1 = Except.error e := by
          rw [hu]
        have h2 := updateUsedTags_error_state h1
        rw [hu] at h2
        exact h2.symm
  · rw [if_neg h]
    have hnil : vibes = [] := List.length_eq_zero.mp (by simpa using h)
    subst hnil
    unfold updateUsedTags
    by_cases hex : st.tagsStoreExists = true
    · rw [if_pos hex]
      rfl
    · rw [if_neg hex]

/-! ### Monotonicity of the tag-usage index -/

theorem tagsLe_refl (A : List TagRec) : tagsLe A A :=
  fun _ r h => ⟨r, h, le_refl _⟩

theorem tagsLe_trans {A B C : List TagRec} (h1 : tagsLe A B) (h2 : tagsLe B C) :
    tagsLe A C := by
  intro t r hr
  obtain ⟨s, hs, hrs⟩ := h1 t r hr
  obtain ⟨q, hq, hsq⟩ := h2 t s hs
  exact ⟨q, hq, le_trans hrs hsq⟩

theorem count_le_expected {pre : List TagRec} {t : String} {r : TagRec}
    (h : tagsGet pre t = some r) : r.count ≤ expectedCount pre t := by
  have he : expectedCount pre t = jsOr1 r.count + 1 := by
    unfold expectedCount
    rw [h]
  rw [he]
  unfold jsOr1
  by_cases hc : r.count = 0
  · rw [if_pos hc]
    omega
  · rw [if_neg hc]
    omega

theorem tagsLe_updateUsedTags (st : DBState) (tags : List String) :
    tagsLe st.tags (updateUsedTags st tags).2.tags := by
  unfold updateUsedTags
  by_cases hex : st.tagsStoreExists = true
  · rw [if_pos hex]
    cases hrw : runWrites st.tags ((normalizeTags tags).map (tagWrite st.tags)) with
    | committed ts2 =>
      show tagsLe st.tags ts2
      intro t r hr
      have hget := runWrites_committed_get st.tags (normalizeTags tags) st.tags ts2 t
        (Or.inl rfl) hrw
      by_cases hm : t ∈ normalizeTags tags
      · rw [if_pos hm] at hget
        exact ⟨⟨t, expectedCount st.tags t⟩, hget, count_le_expected hr⟩
      · rw [if_neg hm] at hget
        rw [hget]
        exact ⟨r, hr, le_refl _⟩
    | aborted pending =>
      cases hf : pending.find? TagWrite.isPut with
      | some w =>
        show tagsLe st.tags ((match pending.find? TagWrite.isPut with
          | some w =>
            (Except.error (String.append "Failed to update tag: " w.record.tag), st)
          | none => (Except.ok (), st)).2.tags)
        rw [hf]
        exact tagsLe_refl _
      | none =>
        show tagsLe st.tags ((match pending.find? TagWrite.isPut with
          | some w =>
            (Except.error (String.append "Failed to update tag: " w.record.tag), st)
          | none => (Except.ok (), st)).2.tags)
        rw [hf]
        exact tagsLe_refl _
  · rw [if_neg hex]
    exact tagsLe_refl _

theorem tagsLe_addBook (st : DBState) (input : BookInput) (newId : String) (now : Nat) :
    tagsLe st.tags ((addBook st input newId now).2).tags := by
  unfold addBook addBookG
  cases h : storeAdd st.books (mkBook input newId now) with
  | none =>
    simp only [h]
    exact tagsLe_refl _
  | some books2 =>
    simp only [h]
    rw [runTagUpdate_pure]
    exact tagsLe_updateUsedTags { st with books := books2 } _

theorem tagsLe_updateBook (st : DBState) (id : String) (upd : BookUpdate) (now : Nat) :
    tagsLe st.tags ((updateBook st id upd now).2).tags := by
  unfold updateBook updateBookG
  cases h : storeGet st.books id with
  | none =>
    simp only [h]
    exact tagsLe_refl _
  | some ex =>
    simp only [h]
    rw [runTagUpdate_pure]
    exact tagsLe_updateUsedTags
      { st with books := storePut st.books (jsMerge ex upd now) } _

theorem tagsLe_applyOp (st : DBState) (op : Op) : tagsLe st.tags (applyOp st op).tags := by
  cases op with
  | add input newId now => exact tagsLe_addBook st input newId now
  | update id upd now => exact tagsLe_updateBook st id upd now
  | del id => exact tagsLe_refl _
  | tagUpdate tags => exact tagsLe_updateUsedTags st tags
  | tagQuery => exact tagsLe_refl _

theorem tagsLe_foldl (ops : List Op) (st : DBState) :
    tagsLe st.tags ((ops.foldl applyOp st)).tags := by
  induction ops generalizing st with
  | nil => exact tagsLe_refl _
  | cons op rest ih =>
    simp only [List.foldl_cons]
    exact tagsLe_trans (tagsLe_applyOp st op) (ih (applyOp st op))

/-! ### Unfolding lemmas for the book operations -/

theorem storeGet_key {books : List Book} {id : String} {b : Book}
    (h : storeGet books id = some b) : b.id = id :=
  kGet_key h

theorem storeAdd_of_get_none {books : List Book} {b : Book}
    (h : storeGet books b.id = none) : storeAdd books b = some (books ++ [b]) := by
  have hany : books.any (fun x => x.id == b.id) = false :=
    (kGet_eq_none_iff Book.id books b.id).mp h
  unfold storeAdd kAdd
  rw [if_neg (by simp [hany])]

theorem storeGet_append_new {books : List Book} {b : Book}
    (h : storeGet books b.id = none) : storeGet (books ++ [b]) b.id = some b := by
  show kGet Book.id (books ++ [b]) b.id = some b
  rw [kGet_append]
  rw [show kGet Book.id books b.id = none from h]
  simp [kGet_cons, kGet]

/-- The read-path normalization is the identity on a record freshly built
by `addBook` (its `vibes` and `didNotFinish` are always defined). -/
theorem normalize_mkBook (input : BookInput) (newId : String) (now : Nat) :
    normalize (mkBook input newId now) = mkBook input newId now := rfl

theorem addBook_of_fresh (st : DBState) (input : BookInput) (newId : String) (now : Nat)
    (h : storeGet st.books newId = none) :
    addBook st input newId now =
      (Except.ok (mkBook input newId now),
        (updateUsedTags { st with books := st.books ++ [mkBook input newId now] }
          (input.vibes.getD [])).2) := by
  have hadd : storeAdd st.books (mkBook input newId now) =
      some (st.books ++ [mkBook input newId now]) :=
    storeAdd_of_get_none h
  unfold addBook addBookG
  simp only [hadd, runTagUpdate_pure]

theorem updateBook_not_found (st : DBState) (id : String) (upd : BookUpdate) (now : Nat)
    (h : storeGet st.books id = none) :
    updateBook st id upd now = (Except.error "Book not found", st) := by
  unfold updateBook updateBookG
  rw [h]

theorem resolveUpdated_jsMerge (ex : Book) (upd : BookUpdate) (now : Nat) :
    resolveUpdated (jsMerge ex upd now) = jsMerge ex upd now := rfl

theorem updateBook_found (st : DBState) (id : String) (upd : BookUpdate) (now : Nat)
    (ex : Book) (h : storeGet st.books id = some ex) :
    updateBook st id upd now =
      (Except.ok (jsMerge ex upd now),
        (updateUsedTags { st with books := storePut st.books (jsMerge ex upd now) }
          ((jsMerge ex upd now).vibes.getD [])).2) := by
  unfold updateBook updateBookG
  simp only [h, runTagUpdate_pure, resolveUpdated_jsMerge]

theorem jsMerge_empty (ex : Book) (now : Nat) (vs : List String)
    (hv : ex.vibes = some vs) :
    jsMerge ex emptyUpdate now = { ex with updatedAt := now } := by
  unfold jsMerge
  rw [hv]
  rfl

/-! ### Concrete fixtures for witnesses and counterexamples -/

/-- A concrete valid payload (the spec's "Dune" scenario). -/
def duneInput : BookInput :=
  ⟨"Dune", "Frank Herbert", "Sci-Fi", 412, Language.English, Format.Physical,
    some ["Sci-Fi"], 9, "", false, none⟩

/-- The record `addBook` builds from `duneInput` with id `"b1"` at time 3. -/
def duneBook : Book :=
  mkBook duneInput "b1" 3

/-- A legacy record: no `vibes` array, only the deprecated single-tag
`vibe` field, and no completion fields. -/
def legacyBook : Book :=
  ⟨"b1", some "T", some "A", some "G", some 100, some Language.Swedish,
    some Format.Ebook, none, some "Cozy Mystery", some 7, some "", none, none, 1, 1⟩

/-- A state holding only `legacyBook`. -/
def legacySt : DBState :=
  ⟨[legacyBook], [], true⟩

/-- A legacy record whose `vibe` field holds the empty string. -/
def emptyVibeBook : Book :=
  ⟨"b2", some "T", some "A", some "G", some 10, some Language.English,
    some Format.Audio, none, some "", some 1, some "", none, none, 2, 2⟩

/-- A state whose tag index holds `"a"` at count 1. -/
def dupTagSt : DBState :=
  ⟨[], [⟨"a", 1⟩], true⟩

/-- A fresh state with an existing (empty) tag store. -/
def freshTagsSt : DBState :=
  ⟨[], [], true⟩

/-- A change set in which every ordinary field key is present with value
`undefined` and the tags key is absent (or `undefined`, which the source
treats identically). -/
def undefUpdate : BookUpdate :=
  ⟨some none, some none, some none, some none, some none, some none, none,
    some none, some none, some none, some none⟩

/-- A tag updater that always rejects, modelling a faulty tag-index
maintenance step. -/
def failingTagUpdate : TagUpdater :=
  fun _ _ => Except.error "fail"

/-! ### The claims -/

/-- C1: for every valid book payload and fresh identifier, `addBook`
resolves with the stored record and `getBookById` on that identifier
resolves with an equal record; the non-generated fields equal the
payload's fields (an absent tag list normalized to `[]`), and the
creation and update timestamps are both the creation time. -/
theorem addBook_then_getBookById (st : DBState) (input : BookInput) (newId : String)
    (now : Nat) (h : storeGet st.books newId = none) :
    (addBook st input newId now).1 = Except.ok (mkBook input newId now) ∧
    getBookById (addBook st input newId now).2 newId = some (mkBook input newId now) ∧
    (mkBook input newId now).title = some input.title ∧
    (mkBook input newId now).author = some input.author ∧
    (mkBook input newId now).genre = some input.genre ∧
    (mkBook input newId now).pages = some input.pages ∧
    (mkBook input newId now).language = some input.language ∧
    (mkBook input newId now).format = some input.format ∧
    (mkBook input newId now).vibes = some (input.vibes.getD []) ∧
    (mkBook input newId now).rating = some input.rating ∧
    (mkBook input newId now).notes = some input.notes ∧
    (mkBook input newId now).didNotFinish = some input.didNotFinish ∧
    (mkBook input newId now).pagesRead = input.pagesRead ∧
    (mkBook input newId now).createdAt = now ∧
    (mkBook input newId now).updatedAt = now := by
  rw [addBook_of_fresh st input newId now h]
  refine ⟨rfl, ?_, rfl, rfl, rfl, rfl, rfl, rfl, rfl, rfl, rfl, rfl, rfl, rfl, rfl⟩
  unfold getBookById
  rw [updateUsedTags_books]
  rw [show storeGet (st.books ++ [mkBook input newId now]) newId =
      some (mkBook input newId now) from storeGet_append_new h]
  rfl

/-- Witness for C1 at the "Dune" payload on the empty store. -/
theorem addBook_then_getBookById_witness :
    storeGet ([] : List Book) "b1" = none ∧
    (addBook freshTagsSt duneInput "b1" 3).1 = Except.ok (mkBook duneInput "b1" 3) ∧
    getBookById (addBook freshTagsSt duneInput "b1" 3).2 "b1"
      = some (mkBook duneInput "b1" 3) :=
  ⟨rfl, (addBook_then_getBookById freshTagsSt duneInput "b1" 3 rfl).1,
    (addBook_then_getBookById freshTagsSt duneInput "b1" 3 rfl).2.1⟩

/-- C2 counterexample: with tag `"a"` stored at count 1, one
`updateUsedTags` call carrying the tag twice ends at count 2, not
1 + 2 = 3: both existence checks were issued before either write, so the
duplicate occurrence's increment is lost.  And for a duplicated *new*
tag, from an empty index, the second `add`'s `ConstraintError` aborts
the transaction and rolls back the first: `"b"` ends with no record at
all, not the count 0 + 2 = 2 the claim prescribes. -/
theorem updateUsedTags_duplicate_lost :
    tagsGet (updateUsedTags dupTagSt ["a", "a"]).2.tags "a" = some ⟨"a", 2⟩ ∧
    ¬ tagsGet (updateUsedTags dupTagSt ["a", "a"]).2.tags "a" = some ⟨"a", 1 + 2⟩ ∧
    tagsGet (updateUsedTags freshTagsSt ["b", "b"]).2.tags "b" = none ∧
    ¬ tagsGet (updateUsedTags freshTagsSt ["b", "b"]).2.tags "b" = some ⟨"b", 2⟩ := by
  exact ⟨by decide, by decide, by decide, by decide⟩

/-- C2 (amended): in a single `updateUsedTags` call, when no *new* tag
(one absent from the pre-call index) occurs more than once in the
normalized list, the call resolves and commits: each distinct tag of the
list ends at `(pre-count || 1) + 1` when it pre-existed and at 1
otherwise — duplicate occurrences of a *pre-existing* tag collapse to a
single increment, every existence check having read the pre-call index —
and tags outside the list keep their records.  When some new tag does
occur twice, the uniqueness-constraint failure on its second insert is
not prevented, so the transaction aborts and every write of the call is
rolled back: the index is left exactly unchanged; the call itself still
resolves when the list holds no pre-existing tags (the pending writes are
all swallowed inserts), and may instead reject when a pre-existing tag's
increment was still pending at the abort. -/
theorem updateUsedTags_counts (st : DBState) (tags : List String) (t : String)
    (hex : st.tagsStoreExists = true) :
    ((∀ u ∈ normalizeTags tags, tagsGet st.tags u = none →
        (normalizeTags tags).count u ≤ 1) →
      (updateUsedTags st tags).1 = Except.ok () ∧
      (t ∈ normalizeTags tags →
        tagsGet (updateUsedTags st tags).2.tags t =
          some ⟨t, expectedCount st.tags t⟩) ∧
      (t ∉ normalizeTags tags →
        tagsGet (updateUsedTags st tags).2.tags t = tagsGet st.tags t)) ∧
    ((∃ u, tagsGet st.tags u = none ∧ 2 ≤ (normalizeTags tags).count u) →
      (updateUsedTags st tags).2 = st) ∧
    ((∀ u ∈ normalizeTags tags, tagsGet st.tags u = none) →
      (updateUsedTags st tags).1 = Except.ok ()) := by
  refine ⟨?_, ?_, ?_⟩
  · intro hnodup
    obtain ⟨fin, hrw⟩ := runWrites_commits st.tags (normalizeTags tags) st.tags
      hnodup (fun _ _ hg => hg)
    unfold updateUsedTags
    rw [if_pos hex]
    simp only [hrw]
    refine ⟨by trivial, ?_, ?_⟩
    · intro hm
      have hget := runWrites_committed_get st.tags (normalizeTags tags) st.tags fin t
        (Or.inl rfl) hrw
      rw [if_pos hm] at hget
      exact hget
    · intro hm
      have hget := runWrites_committed_get st.tags (normalizeTags tags) st.tags fin t
        (Or.inl rfl) hrw
      rw [if_neg hm] at hget
      exact hget
  · intro hdup
    obtain ⟨u, hgu, hcu⟩ := hdup
    obtain ⟨pending, hrw⟩ := runWrites_aborts st.tags (normalizeTags tags) st.tags u
      hgu (Or.inr ⟨hgu, hcu⟩)
    unfold updateUsedTags
    rw [if_pos hex]
    simp only [hrw]
    cases hf : pending.find? TagWrite.isPut with
    | some w => simp only [hf]
    | none => simp only [hf]
  · intro hall
    unfold updateUsedTags
    rw [if_pos hex]
    cases hrw : runWrites st.tags ((normalizeTags tags).map (tagWrite st.tags)) with
    | committed ts2 => rfl
    | aborted pending =>
      have hnoput : ∀ w ∈ pending, ¬ TagWrite.isPut w = true := by
        intro w hw
        obtain ⟨u2, hu2, hwu⟩ := List.mem_map.mp (runWrites_aborted_mem hrw w hw)
        rw [← hwu, tagWrite_of_none (hall u2 hu2)]
        simp [TagWrite.isPut]
      have hf : pending.find? TagWrite.isPut = none :=
        List.find?_eq_none.mpr hnoput
      simp only [hf]

/-- Witness for the amended C2.  Commit regime: pre-count 3 for `"x"`
becomes 4, new `" y"` is trimmed to `"y"` and inserted at 1, `"q"` is
untouched.  Abort regime: `["b", "b"]` on an empty index leaves the
index unchanged, and (all pending writes being inserts) still resolves. -/
theorem updateUsedTags_counts_witness :
    (⟨[], [⟨"x", 3⟩], true⟩ : DBState).tagsStoreExists = true ∧
    tagsGet (updateUsedTags ⟨[], [⟨"x", 3⟩], true⟩ ["x", " y"]).2.tags "x"
      = some ⟨"x", 4⟩ ∧
    tagsGet (updateUsedTags ⟨[], [⟨"x", 3⟩], true⟩ ["x", " y"]).2.tags "y"
      = some ⟨"y", 1⟩ ∧
    tagsGet (updateUsedTags ⟨[], [⟨"x", 3⟩], true⟩ ["x", " y"]).2.tags "q"
      = tagsGet [⟨"x", 3⟩] "q" ∧
    (updateUsedTags ⟨[], [], true⟩ ["b", "b"]).2 = ⟨[], [], true⟩ ∧
    (updateUsedTags ⟨[], [], true⟩ ["b", "b"]).1 = Except.ok () := by
  refine ⟨rfl, ?_, ?_, ?_, ?_, ?_⟩
  · rw [((updateUsedTags_counts ⟨[], [⟨"x", 3⟩], true⟩ ["x", " y"] "x" rfl).1
      (by decide)).2.1 (by decide)]
    rfl
  · rw [((updateUsedTags_counts ⟨[], [⟨"x", 3⟩], true⟩ ["x", " y"] "y" rfl).1
      (by decide)).2.1 (by decide)]
    rfl
  · exact ((updateUsedTags_counts ⟨[], [⟨"x", 3⟩], true⟩ ["x", " y"] "q" rfl).1
      (by decide)).2.2 (by decide)
  · exact (updateUsedTags_counts ⟨[], [], true⟩ ["b", "b"] "b" rfl).2.1
      ⟨"b", rfl, by decide⟩
  · exact (updateUsedTags_counts ⟨[], [], true⟩ ["b", "b"] "b" rfl).2.2 (by decide)

/-- C3: `updateBook` on an identifier with no record rejects with
`'Book not found'` and returns before any write, leaving the entire
state (book collection included) exactly as it was. -/
theorem updateBook_missing_id (st : DBState) (id : String) (upd : BookUpdate)
    (now : Nat) (h : storeGet st.books id = none) :
    updateBook st id upd now = (Except.error "Book not found", st) :=
  updateBook_not_found st id upd now h

/-- Witness for C3 on a one-book store and an absent identifier. -/
theorem updateBook_missing_id_witness :
    storeGet (⟨[duneBook], [], true⟩ : DBState).books "nope" = none ∧
    updateBook ⟨[duneBook], [], true⟩ "nope" emptyUpdate 9
      = (Except.error "Book not found", ⟨[duneBook], [], true⟩) :=
  ⟨rfl, updateBook_missing_id ⟨[duneBook], [], true⟩ "nope" emptyUpdate 9 rfl⟩

/-- C4 counterexample: on a legacy record without a `vibes` field, an
empty-change-set update changes more than the update timestamp — the
stored record's tag-list field goes from absent (`undefined`) to the
empty array, because the merge writes `existingBook.vibes || []`. -/
theorem updateBook_empty_on_legacy :
    legacyBook.vibes = none ∧
    (storeGet (updateBook legacySt "b1" emptyUpdate 5).2.books "b1").map Book.vibes
      = some (some []) ∧
    ¬ (storeGet (updateBook legacySt "b1" emptyUpdate 5).2.books "b1").map Book.vibes
      = some legacyBook.vibes := by
  refine ⟨rfl, by decide, by decide⟩

/-- C4 (amended): for every stored record that carries a tag-list field,
`updateBook` with the empty change set resolves with, and stores, the
record identical to the old one except for the update timestamp; every
other record of the collection is unchanged.  (A legacy record lacking
the tag-list field additionally gets `vibes` materialized as `[]`.) -/
theorem updateBook_empty_update (st : DBState) (id : String) (now : Nat) (ex : Book)
    (vs : List String) (h : storeGet st.books id = some ex)
    (hv : ex.vibes = some vs) :
    (updateBook st id emptyUpdate now).1 = Except.ok { ex with updatedAt := now } ∧
    storeGet (updateBook st id emptyUpdate now).2.books id
      = some { ex with updatedAt := now } ∧
    (∀ b ∈ st.books, ¬ b.id = id → b ∈ (updateBook st id emptyUpdate now).2.books) ∧
    (∀ b ∈ (updateBook st id emptyUpdate now).2.books, ¬ b.id = id →
      b ∈ st.books) := by
  have hid : ex.id = id := storeGet_key h
  have hm : jsMerge ex emptyUpdate now = { ex with updatedAt := now } :=
    jsMerge_empty ex now vs hv
  rw [updateBook_found st id emptyUpdate now ex h, hm]
  refine ⟨rfl, ?_, ?_, ?_⟩
  · rw [updateUsedTags_books]
    rw [show storeGet (storePut st.books { ex with updatedAt := now }) id =
        if ({ ex with updatedAt := now } : Book).id == id
          then some { ex with updatedAt := now }
          else storeGet st.books id from
      kPut_get Book.id st.books { ex with updatedAt := now } id]
    rw [if_pos (by simp [hid])]
  · intro b hb hbne
    rw [updateUsedTags_books]
    refine mem_kPut_of_ne hb ?_
    show ¬ b.id = ({ ex with updatedAt := now } : Book).id
    rw [show ({ ex with updatedAt := now } : Book).id = ex.id from rfl, hid]
    exact hbne
  · intro b hb hbne
    rw [updateUsedTags_books] at hb
    rcases mem_of_mem_kPut hb with h2 | h2
    · exfalso
      apply hbne
      rw [h2]
      rw [show ({ ex with updatedAt := now } : Book).id = ex.id from rfl, hid]
    · exact h2

/-- Witness for the amended C4 at `duneBook` (which has a tag list). -/
theorem updateBook_empty_update_witness :
    storeGet (⟨[duneBook], [], true⟩ : DBState).books "b1" = some duneBook ∧
    duneBook.vibes = some ["Sci-Fi"] ∧
    (updateBook ⟨[duneBook], [], true⟩ "b1" emptyUpdate 9).1
      = Except.ok { duneBook with updatedAt := 9 } ∧
    storeGet (updateBook ⟨[duneBook], [], true⟩ "b1" emptyUpdate 9).2.books "b1"
      = some { duneBook with updatedAt := 9 } :=
  ⟨rfl, rfl,
    (updateBook_empty_update ⟨[duneBook], [], true⟩ "b1" 9 duneBook ["Sci-Fi"]
      rfl rfl).1,
    (updateBook_empty_update ⟨[duneBook], [], true⟩ "b1" 9 duneBook ["Sci-Fi"]
      rfl rfl).2.1⟩

/-- C5 counterexample: a legacy record whose `vibe` field holds the empty
string (present, and not the `'Ingen vibe'` sentinel) is normalized to an
empty tag list — the falsiness test `book.vibe &&` also drops the empty
string — not to the singleton `[""]` the claim prescribes for a present
non-sentinel legacy tag. -/
theorem legacy_empty_string_vibe :
    emptyVibeBook.vibes = none ∧
    emptyVibeBook.vibe = some "" ∧
    ¬ "" = "Ingen vibe" ∧
    getBookById ⟨[emptyVibeBook], [], true⟩ "b2" = some (normalize emptyVibeBook) ∧
    (normalize emptyVibeBook).vibes = some [] ∧
    ¬ (normalize emptyVibeBook).vibes = some [""] := by
  refine ⟨rfl, rfl, by decide, rfl, by decide, by decide⟩

/-- C5 (amended): a record stored under an older schema — `vibes` absent,
possibly carrying the legacy `vibe` field, possibly missing the
completion flag — is returned by `getBookById` (and appears in
`getAllBooks`) normalized: the tag list is the singleton of the legacy
tag, or empty when the legacy field is absent, empty, or the
`'Ingen vibe'` sentinel; the completion flag defaults to `false`. -/
theorem legacy_normalization (st : DBState) (id : String) (b : Book)
    (h : storeGet st.books id = some b) :
    getBookById st id = some (normalize b) ∧
    (b ∈ st.books → normalize b ∈ getAllBooks st) ∧
    (b.vibes = none → ∀ v, b.vibe = some v → ¬ v = "" → ¬ v = "Ingen vibe" →
      (normalize b).vibes = some [v]) ∧
    (b.vibes = none → b.vibe = none → (normalize b).vibes = some []) ∧
    (b.vibes = none → b.vibe = some "" → (normalize b).vibes = some []) ∧
    (b.vibes = none → b.vibe = some "Ingen vibe" → (normalize b).vibes = some []) ∧
    (b.didNotFinish = none → (normalize b).didNotFinish = some false) := by
  refine ⟨?_, ?_, ?_, ?_, ?_, ?_, ?_⟩
  · unfold getBookById
    rw [h]
    rfl
  · intro hb
    exact List.mem_map.mpr ⟨b, hb, rfl⟩
  · intro hv v hvv hne hnes
    unfold normalize
    rw [hv, hvv]
    simp [hne, hnes]
  · intro hv hvv
    unfold normalize
    rw [hv, hvv]
  · intro hv hvv
    unfold normalize
    rw [hv, hvv]
    simp
  · intro hv hvv
    unfold normalize
    rw [hv, hvv]
    simp
  · intro hd
    unfold normalize
    rw [hd]
    rfl

/-- Witness for the amended C5 at `legacyBook` (legacy tag
`"Cozy Mystery"`, completion flag absent). -/
theorem legacy_normalization_witness :
    storeGet legacySt.books "b1" = some legacyBook ∧
    getBookById legacySt "b1" = some (normalize legacyBook) ∧
    (normalize legacyBook).vibes = some ["Cozy Mystery"] ∧
    (normalize legacyBook).didNotFinish = some false := by
  refine ⟨rfl, (legacy_normalization legacySt "b1" legacyBook rfl).1, ?_, ?_⟩
  · exact (legacy_normalization legacySt "b1" legacyBook rfl).2.2.1 rfl
      "Cozy Mystery" rfl (by decide) (by decide)
  · exact (legacy_normalization legacySt "b1" legacyBook rfl).2.2.2.2.2.2 rfl

/-- C6: `deleteBook` always resolves (the underlying `store.delete`
succeeds whether or not the identifier exists — the model is total), and
a subsequent `getBookById` on the identifier yields the explicit
"not found" result `none` rather than a failure. -/
theorem deleteBook_then_getBookById (st : DBState) (id : String) :
    getBookById (deleteBook st id) id = none := by
  unfold getBookById
  rw [show storeGet (deleteBook st id).books id = none from
    kDel_get_self Book.id st.books id]
  rfl

/-- C7: a failure of the tag-usage index update never causes `addBook` or
`updateBook` to fail: for an arbitrary (possibly rejecting) tag updater,
once the record write succeeded both operations still resolve with the
stored book record; the tag failure is only logged. -/
theorem tagFailure_not_propagated (u : TagUpdater) (st : DBState) (input : BookInput)
    (newId : String) (now : Nat) (id : String) (upd : BookUpdate) (ex : Book)
    (books2 : List Book)
    (h1 : storeAdd st.books (mkBook input newId now) = some books2)
    (h2 : storeGet st.books id = some ex) :
    (addBookG u st input newId now).1 = Except.ok (mkBook input newId now) ∧
    (updateBookG u st id upd now).1 = Except.ok (jsMerge ex upd now) := by
  constructor
  · unfold addBookG
    simp only [h1]
  · unfold updateBookG
    simp only [h2, resolveUpdated_jsMerge]

/-- Witness for C7 with an always-failing tag updater. -/
theorem tagFailure_not_propagated_witness :
    (addBookG failingTagUpdate ⟨[duneBook], [], true⟩ duneInput "b2" 4).1
      = Except.ok (mkBook duneInput "b2" 4) ∧
    (updateBookG failingTagUpdate ⟨[duneBook], [], true⟩ "b1" emptyUpdate 4).1
      = Except.ok (jsMerge duneBook emptyUpdate 4) :=
  tagFailure_not_propagated failingTagUpdate ⟨[duneBook], [], true⟩ duneInput "b2" 4
    "b1" emptyUpdate duneBook ([duneBook] ++ [mkBook duneInput "b2" 4]) rfl rfl

/-- C8: `updateUsedTags` trims surrounding whitespace and discards empty
strings but does not case-fold: from an empty index, running the call
with `["Romance", "romance "]` twice leaves `"Romance"` at count 2 and
the distinct trimmed string `"romance"` with its own count. -/
theorem romance_scenario :
    normalizeTags ["Romance", "romance "] = ["Romance", "romance"] ∧
    tagsGet (updateUsedTags (updateUsedTags freshTagsSt ["Romance", "romance "]).2
      ["Romance", "romance "]).2.tags "Romance" = some ⟨"Romance", 2⟩ ∧
    tagsGet (updateUsedTags (updateUsedTags freshTagsSt ["Romance", "romance "]).2
      ["Romance", "romance "]).2.tags "romance" = some ⟨"romance", 2⟩ ∧
    ¬ ("romance" : String) = "Romance" := by
  refine ⟨by decide, by decide, by decide, by decide⟩

/-- C9: no operation of the persistence layer ever decreases a stored
tag-usage count or removes a tag record: after any sequence of
operations, every tag recorded in the starting state is still present
with a count at least as large. -/
theorem tag_index_monotone (st : DBState) (ops : List Op) :
    tagsLe st.tags ((ops.foldl applyOp st)).tags :=
  tagsLe_foldl ops st

/-- C10: when a change-set key is present with value `undefined`, the
merged record stores `undefined` for that field — for every field except
the identifier, the creation timestamp and the tag list, which are
re-assigned after the spread and therefore preserved (tags fall back to
the previously stored list when the change set's tags are undefined or
absent). -/
theorem updateBook_undefined_overwrites (st : DBState) (id : String) (upd : BookUpdate)
    (now : Nat) (ex : Book) (h : storeGet st.books id = some ex) :
    (updateBook st id upd now).1 = Except.ok (jsMerge ex upd now) ∧
    storeGet (updateBook st id upd now).2.books id = some (jsMerge ex upd now) ∧
    (jsMerge ex upd now).id = ex.id ∧
    (jsMerge ex upd now).createdAt = ex.createdAt ∧
    (upd.title = some none → (jsMerge ex upd now).title = none) ∧
    (upd.author = some none → (jsMerge ex upd now).author = none) ∧
    (upd.genre = some none → (jsMerge ex upd now).genre = none) ∧
    (upd.pages = some none → (jsMerge ex upd now).pages = none) ∧
    (upd.language = some none → (jsMerge ex upd now).language = none) ∧
    (upd.format = some none → (jsMerge ex upd now).format = none) ∧
    (upd.rating = some none → (jsMerge ex upd now).rating = none) ∧
    (upd.notes = some none → (jsMerge ex upd now).notes = none) ∧
    (upd.didNotFinish = some none → (jsMerge ex upd now).didNotFinish = none) ∧
    (upd.pagesRead = some none → (jsMerge ex upd now).pagesRead = none) ∧
    (upd.vibes = none → (jsMerge ex upd now).vibes = some (ex.vibes.getD [])) ∧
    (upd.vibes = none → ∀ vs, ex.vibes = some vs →
      (jsMerge ex upd now).vibes = some vs) := by
  have hid : ex.id = id := storeGet_key h
  rw [updateBook_found st id upd now ex h]
  refine ⟨rfl, ?_, rfl, rfl, ?_, ?_, ?_, ?_, ?_, ?_, ?_, ?_, ?_, ?_, ?_, ?_⟩
  · rw [updateUsedTags_books]
    rw [show storeGet (storePut st.books (jsMerge ex upd now)) id =
        if (jsMerge ex upd now).id == id then some (jsMerge ex upd now)
        else storeGet st.books id from
      kPut_get Book.id st.books (jsMerge ex upd now) id]
    rw [if_pos (by simp [jsMerge, hid])]
  · intro ht
    unfold jsMerge
    rw [ht]
    rfl
  · intro ht
    unfold jsMerge
    rw [ht]
    rfl
  · intro ht
    unfold jsMerge
    rw [ht]
    rfl
  · intro ht
    unfold jsMerge
    rw [ht]
    rfl
  · intro ht
    unfold jsMerge
    rw [ht]
    rfl
  · intro ht
    unfold jsMerge
    rw [ht]
    rfl
  · intro ht
    unfold jsMerge
    rw [ht]
    rfl
  · intro ht
    unfold jsMerge
    rw [ht]
    rfl
  · intro ht
    unfold jsMerge
    rw [ht]
    rfl
  · intro ht
    unfold jsMerge
    rw [ht]
    rfl
  · intro hv
    unfold jsMerge
    rw [hv]
  · intro hv vs hvs
    unfold jsMerge
    rw [hv, hvs]
    rfl

/-- Witness for C10: every ordinary field key present with `undefined`
wipes the stored value; id, creation timestamp and tag list survive. -/
theorem updateBook_undefined_overwrites_witness :
    (updateBook ⟨[duneBook], [], true⟩ "b1" undefUpdate 9).1
      = Except.ok (jsMerge duneBook undefUpdate 9) ∧
    (jsMerge duneBook undefUpdate 9).title = none ∧
    (jsMerge duneBook undefUpdate 9).rating = none ∧
    (jsMerge duneBook undefUpdate 9).id = duneBook.id ∧
    (jsMerge duneBook undefUpdate 9).createdAt = duneBook.createdAt ∧
    (jsMerge duneBook undefUpdate 9).vibes = some ["Sci-Fi"] := by
  have h := updateBook_undefined_overwrites ⟨[duneBook], [], true⟩ "b1" undefUpdate 9
    duneBook rfl
  obtain ⟨h1, h2, h3, h4, h5, h6, h7, h8, h9, h10, h11, h12, h13, h14, h15, h16⟩ := h
  exact ⟨h1, h5 rfl, h11 rfl, h3, h4, h16 rfl ["Sci-Fi"] rfl⟩

end BookLog
